import Mathlib

/-!
Shallow embedding of the geometry and polling code of the ISS tracker
(src/app.py), together with theorems settling the specification claims.
Machine floats are modelled by exact real numbers; the numeric values
carried by the poll path are modelled by rationals.
-/

/-- A point in cartesian 3-space: (x, y, z), x being the depth axis. -/
abbrev Pt3 := ℝ × ℝ × ℝ

/-- Embedding of cylindricalToCartesian (app.py lines 30-37):
x = r cos(lat) cos(long), y = r cos(lat) sin(long), z = r sin(lat). -/
noncomputable def cylindricalToCartesian (r long lat : ℝ) : Pt3 :=
  (r * Real.cos lat * Real.cos long,
   r * Real.cos lat * Real.sin long,
   r * Real.sin lat)

/-- Two-argument arctangent, the embedding of np.arctan2(y, x): the argument
of the complex number x + y i, with range (-pi, pi] and atan2 0 0 = 0. -/
noncomputable def atan2 (y x : ℝ) : ℝ := Complex.arg (x + y * Complex.I)

/-- Embedding of cartesianToLongLat (app.py lines 134-149):
long = atan2(z, y), lat = atan2(x, sqrt(y^2 + z^2)). -/
noncomputable def cartesianToLongLat (x y z : ℝ) : ℝ × ℝ :=
  (atan2 z y, atan2 x (Real.sqrt (y ^ 2 + z ^ 2)))

/-- Embedding of the body of the rotation loop of rotate (app.py lines
255-259): each point (x, y, z) becomes (x c - y s, x s + y c, z). -/
noncomputable def rotateStep (angle : ℝ) (p : Pt3) : Pt3 :=
  (p.1 * Real.cos angle - p.2.1 * Real.sin angle,
   p.1 * Real.sin angle + p.2.1 * Real.cos angle,
   p.2.2)

/-- A sequence of rotation steps applied in order, as successive calls of
rotate are applied to a stored point. -/
noncomputable def applyRotations (angles : List ℝ) (p : Pt3) : Pt3 :=
  angles.foldl (fun q a => rotateStep a q) p

/-- Python modulo on reals for a nonzero divisor m:
a % m = a - m * floor (a / m) (the sign of the result follows m). -/
noncomputable def pymod (a m : ℝ) : ℝ := a - m * (⌊a / m⌋ : ℝ)

/-- Embedding of nmod (app.py line 125): nmod(ang, m) = (ang + m) % (2 m) - m. -/
noncomputable def nmod (ang m : ℝ) : ℝ := pymod (ang + m) (2 * m) - m

theorem rotateStep_neg_rotateStep (angle : ℝ) (p : Pt3) :
    rotateStep (-angle) (rotateStep angle p) = p := by
  obtain ⟨x, y, z⟩ := p
  simp only [rotateStep, Real.cos_neg, Real.sin_neg, Prod.mk.injEq]
  refine ⟨?_, ?_, trivial⟩
  · linear_combination x * Real.sin_sq_add_cos_sq angle
  · linear_combination y * Real.sin_sq_add_cos_sq angle

theorem rotateStep_two_pi (p : Pt3) : rotateStep (2 * Real.pi) p = p := by
  simp [rotateStep, Real.cos_two_pi, Real.sin_two_pi]

/-- C6: the rotation step applied by rotate is undone by the step with the
negated angle, and the step by 2 pi is the identity, over exact reals. -/
theorem rotate_inverse_and_full_turn (angle : ℝ) (p : Pt3) :
    rotateStep (-angle) (rotateStep angle p) = p ∧
    rotateStep (2 * Real.pi) p = p :=
  ⟨rotateStep_neg_rotateStep angle p, rotateStep_two_pi p⟩

/-- Python slicing poly[::k] (stride k, offset state c: the number of
elements still to skip before the next one is kept). sliceEvery k 0 xs
keeps the elements of xs at indices 0, k, 2k, ... -/
def sliceEvery {α : Type} (k : ℕ) : ℕ → List α → List α
  | _, [] => []
  | 0, x :: xs => x :: sliceEvery k (k - 1) xs
  | c + 1, _ :: xs => sliceEvery k c xs

/-- Conversion applied to each retained (long, lat) pair by loadPolygon
(app.py lines 56-59): degrees to radians, then cylindricalToCartesian. -/
noncomputable def degToCart (R : ℝ) (q : ℝ × ℝ) : Pt3 :=
  cylindricalToCartesian R (q.1 * Real.pi / 180) (q.2 * Real.pi / 180)

/-- Embedding of loadPolygon (app.py lines 52-59): rings of fewer than 125
points are dropped (modelled by none); otherwise the ring is downsampled at
stride max(len/200, 3) and converted to cartesian points at radius R. -/
noncomputable def loadPolygon (R : ℝ) (poly : List (ℝ × ℝ)) : Option (List Pt3) :=
  if poly.length < 125 then none
  else some ((sliceEvery (max (poly.length / 200) 3) 0 poly).map (degToCart R))

theorem sliceEvery_getElem? {α : Type} (k : ℕ) (hk : 1 ≤ k) :
    ∀ (xs : List α) (c j : ℕ), (sliceEvery k c xs)[j]? = xs[c + j * k]?
  | [], c, j => by simp [sliceEvery]
  | x :: xs, 0, 0 => by simp [sliceEvery]
  | x :: xs, 0, j + 1 => by
      show (x :: sliceEvery k (k - 1) xs)[j + 1]? = (x :: xs)[0 + (j + 1) * k]?
      rw [List.getElem?_cons_succ]
      have e : 0 + (j + 1) * k = (k - 1 + j * k) + 1 := by
        rw [Nat.succ_mul]; omega
      rw [e, List.getElem?_cons_succ]
      exact sliceEvery_getElem? k hk xs (k - 1) j
  | x :: xs, c + 1, j => by
      show (sliceEvery k c xs)[j]? = (x :: xs)[c + 1 + j * k]?
      have e : c + 1 + j * k = (c + j * k) + 1 := by omega
      rw [e, List.getElem?_cons_succ]
      exact sliceEvery_getElem? k hk xs c j

theorem sliceEvery_length {α : Type} (k : ℕ) (hk : 1 ≤ k) :
    ∀ (xs : List α) (c : ℕ), c ≤ k - 1 →
      (sliceEvery k c xs).length = (xs.length + (k - 1 - c)) / k
  | [], c, hc => by
      have h0 : sliceEvery k c ([] : List α) = [] := by simp [sliceEvery]
      rw [h0]
      simp only [List.length_nil, Nat.zero_add]
      exact (Nat.div_eq_of_lt (by omega)).symm
  | x :: xs, 0, _ => by
      show (x :: sliceEvery k (k - 1) xs).length = (xs.length + 1 + (k - 1 - 0)) / k
      rw [List.length_cons, sliceEvery_length k hk xs (k - 1) le_rfl]
      have e1 : xs.length + (k - 1 - (k - 1)) = xs.length := by omega
      have e2 : xs.length + 1 + (k - 1 - 0) = xs.length + k := by omega
      rw [e1, e2, Nat.add_div_right _ (by omega)]
  | x :: xs, c + 1, hc => by
      show (sliceEvery k c xs).length = (xs.length + 1 + (k - 1 - (c + 1))) / k
      rw [sliceEvery_length k hk xs c (by omega)]
      congr 1
      omega

theorem loadPolygon_eq_some (R : ℝ) (poly : List (ℝ × ℝ)) (ps : List Pt3)
    (h : loadPolygon R poly = some ps) :
    125 ≤ poly.length ∧
    ps = (sliceEvery (max (poly.length / 200) 3) 0 poly).map (degToCart R) := by
  by_cases hlen : poly.length < 125
  · simp [loadPolygon, hlen] at h
  · refine ⟨by omega, ?_⟩
    simp only [loadPolygon, if_neg hlen, Option.some.injEq] at h
    exact h.symm

/-- C7: rings of fewer than 125 points are dropped by loadPolygon; a
retained ring yields ceil(len/stride) points, the j-th stored point being
the ring point at index j * stride, stride = max(len/200, 3), converted to
cartesian coordinates at radius R with degrees turned into radians. -/
theorem loadPolygon_spec (R : ℝ) (poly : List (ℝ × ℝ)) :
    (poly.length < 125 → loadPolygon R poly = none) ∧
    (∀ ps, loadPolygon R poly = some ps →
      125 ≤ poly.length ∧
      ps.length =
        (poly.length + (max (poly.length / 200) 3 - 1)) / max (poly.length / 200) 3 ∧
      ∀ j, ps[j]? = (poly[j * max (poly.length / 200) 3]?).map (degToCart R)) := by
  have hk : 1 ≤ max (poly.length / 200) 3 :=
    le_trans (by norm_num) (Nat.le_max_right (poly.length / 200) 3)
  constructor
  · intro h
    simp [loadPolygon, h]
  · intro ps hps
    obtain ⟨hlen, rfl⟩ := loadPolygon_eq_some R poly ps hps
    refine ⟨hlen, ?_, ?_⟩
    · rw [List.length_map, sliceEvery_length _ hk poly 0 (by omega), Nat.sub_zero]
    · intro j
      rw [List.getElem?_map, sliceEvery_getElem? _ hk poly 0 j, Nat.zero_add]

/-- Test ring of 125 identical points used to instantiate the polygon
loading theorems at a concrete input. -/
noncomputable def ring125 : List (ℝ × ℝ) := List.replicate 125 (0, 0)

/-- The points loadPolygon stores for ring125 at radius 1. -/
noncomputable def ring125pts : List Pt3 := (sliceEvery 3 0 ring125).map (degToCart 1)

theorem loadPolygon_ring125 : loadPolygon 1 ring125 = some ring125pts := by
  have hlen : ring125.length = 125 := by simp [ring125]
  have : ¬ ring125.length < 125 := by omega
  simp only [loadPolygon, if_neg this, ring125pts, hlen, Option.some.injEq]
  norm_num

theorem loadPolygon_spec_witness :
    ring125pts.length = 42 ∧ ring125pts[0]? = some (degToCart 1 (0, 0)) := by
  have h := (loadPolygon_spec 1 ring125).2 ring125pts loadPolygon_ring125
  have hlen : ring125.length = 125 := by simp [ring125]
  constructor
  · rw [h.2.1, hlen]
    decide
  · have hidx : ring125[(0 : ℕ)]? = some ((0 : ℝ), (0 : ℝ)) := by
      simp only [ring125, List.getElem?_replicate]
      norm_num
    rw [h.2.2 0, hlen, Nat.zero_mul, hidx, Option.map_some']

/-- Squared distance of a point from the origin. -/
noncomputable def normSq3 (p : Pt3) : ℝ := p.1 ^ 2 + p.2.1 ^ 2 + p.2.2 ^ 2

theorem normSq3_cylindricalToCartesian (r long lat : ℝ) :
    normSq3 (cylindricalToCartesian r long lat) = r ^ 2 := by
  simp only [normSq3, cylindricalToCartesian]
  linear_combination (r ^ 2 * Real.cos lat ^ 2) * Real.sin_sq_add_cos_sq long +
    r ^ 2 * Real.sin_sq_add_cos_sq lat

theorem normSq3_rotateStep (angle : ℝ) (p : Pt3) :
    normSq3 (rotateStep angle p) = normSq3 p := by
  simp only [normSq3, rotateStep]
  linear_combination (p.1 ^ 2 + p.2.1 ^ 2) * Real.sin_sq_add_cos_sq angle

theorem normSq3_applyRotations (angles : List ℝ) (p : Pt3) :
    normSq3 (applyRotations angles p) = normSq3 p := by
  induction angles generalizing p with
  | nil => rfl
  | cons a as ih =>
      have step : applyRotations (a :: as) p = applyRotations as (rotateStep a p) := rfl
      rw [step, ih (rotateStep a p), normSq3_rotateStep]

/-- C8: every point stored by loadPolygon lies on the sphere of radius R
(x^2 + y^2 + z^2 = R^2 over exact reals), the rotation step of rotate
preserves that quantity, and hence every stored point still lies on the
sphere after any sequence of rotation steps. -/
theorem sphere_invariant (R : ℝ) :
    (∀ r long lat, normSq3 (cylindricalToCartesian r long lat) = r ^ 2) ∧
    (∀ angle p, normSq3 (rotateStep angle p) = normSq3 p) ∧
    (∀ (poly : List (ℝ × ℝ)) (ps : List Pt3), loadPolygon R poly = some ps →
      ∀ (angles : List ℝ) (j : ℕ) (p : Pt3), ps[j]? = some p →
        normSq3 (applyRotations angles p) = R ^ 2) := by
  refine ⟨normSq3_cylindricalToCartesian, normSq3_rotateStep, ?_⟩
  intro poly ps hps angles j p hj
  obtain ⟨-, rfl⟩ := loadPolygon_eq_some R poly ps hps
  rw [List.getElem?_map] at hj
  obtain ⟨q, -, rfl⟩ := Option.map_eq_some'.mp hj
  rw [normSq3_applyRotations, degToCart, normSq3_cylindricalToCartesian]

theorem sphere_invariant_witness :
    normSq3 (applyRotations [Real.pi] (degToCart 1 (0, 0))) = 1 ^ 2 := by
  have hidx : ring125pts[(0 : ℕ)]? = some (degToCart 1 (0, 0)) := by
    simp only [ring125pts, List.getElem?_map]
    have h0 : ring125[(0 : ℕ)]? = some ((0 : ℝ), (0 : ℝ)) := by
      simp only [ring125, List.getElem?_replicate]
      norm_num
    rw [sliceEvery_getElem? 3 (by norm_num) ring125 0 0]
    norm_num [h0]
  exact (sphere_invariant 1).2.2 ring125 ring125pts loadPolygon_ring125
    [Real.pi] 0 (degToCart 1 (0, 0)) hidx

theorem atan2_zero_zero : atan2 0 0 = 0 := by
  simp [atan2, Complex.arg_zero]

theorem atan2_one_zero : atan2 1 0 = Real.pi / 2 := by
  simp [atan2, Complex.arg_I]

theorem atan2_mul_cos_sin (s θ : ℝ) (hs : 0 < s)
    (hθ1 : -Real.pi < θ) (hθ2 : θ ≤ Real.pi) :
    atan2 (s * Real.sin θ) (s * Real.cos θ) = θ := by
  unfold atan2
  have h : (↑(s * Real.cos θ) : ℂ) + ↑(s * Real.sin θ) * Complex.I
      = (s : ℂ) * (Real.cos θ + Real.sin θ * Complex.I) := by
    push_cast
    ring
  rw [h, Complex.arg_real_mul _ hs, Complex.ofReal_cos, Complex.ofReal_sin,
    Complex.arg_cos_add_sin_mul_I ⟨hθ1, hθ2⟩]

/-- C1 counterexample: at radius 1, longitude 0, latitude 0 (a latitude
strictly inside (-90, 90) degrees), cylindricalToCartesian followed by
cartesianToLongLat yields (0, pi/2), not the original (0, 0): the two
functions place the polar axis on different coordinates (z against x). -/
theorem roundtrip_counterexample :
    cartesianToLongLat (cylindricalToCartesian 1 0 0).1
      (cylindricalToCartesian 1 0 0).2.1 (cylindricalToCartesian 1 0 0).2.2 =
      (0, Real.pi / 2) ∧
    ((0 : ℝ), Real.pi / 2) ≠ ((0 : ℝ), (0 : ℝ)) := by
  have hpi : Real.pi / 2 ≠ 0 := ne_of_gt (by positivity)
  constructor
  · have hc : cylindricalToCartesian 1 0 0 = ((1 : ℝ), (0 : ℝ), (0 : ℝ)) := by
      simp [cylindricalToCartesian]
    rw [hc]
    simp only [cartesianToLongLat]
    rw [show Real.sqrt ((0 : ℝ) ^ 2 + (0 : ℝ) ^ 2) = 0 by simp]
    rw [atan2_zero_zero, atan2_one_zero]
  · simp [Prod.ext_iff, hpi]

/-- C1 amended: the round trip law holds once the axis conventions are
aligned: feeding the cartesian point through cartesianToLongLat under the
cyclic coordinate permutation (x, y, z) -> (z, x, y) reproduces the original
(longitude, latitude), for any radius r > 0, longitude in (-pi, pi] and
latitude strictly between -pi/2 and pi/2; as stated (without the
permutation) the round trip fails, per the counterexample. -/
theorem roundtrip_amended (r long lat : ℝ) (hr : 0 < r)
    (h1 : -Real.pi < long) (h2 : long ≤ Real.pi)
    (h3 : -(Real.pi / 2) < lat) (h4 : lat < Real.pi / 2) :
    cartesianToLongLat (cylindricalToCartesian r long lat).2.2
      (cylindricalToCartesian r long lat).1
      (cylindricalToCartesian r long lat).2.1 = (long, lat) := by
  have hcl : 0 < Real.cos lat := Real.cos_pos_of_mem_Ioo ⟨h3, h4⟩
  simp only [cylindricalToCartesian, cartesianToLongLat]
  rw [Prod.mk.injEq]
  constructor
  · exact atan2_mul_cos_sin (r * Real.cos lat) long (by positivity) h1 h2
  · have hsqrt : Real.sqrt ((r * Real.cos lat * Real.cos long) ^ 2 +
        (r * Real.cos lat * Real.sin long) ^ 2) = r * Real.cos lat := by
      rw [show (r * Real.cos lat * Real.cos long) ^ 2 +
          (r * Real.cos lat * Real.sin long) ^ 2 = (r * Real.cos lat) ^ 2 by
        linear_combination (r * Real.cos lat) ^ 2 * Real.sin_sq_add_cos_sq long]
      exact Real.sqrt_sq (by positivity)
    rw [hsqrt]
    exact atan2_mul_cos_sin r lat hr (by linarith [Real.pi_pos])
      (by linarith [Real.pi_pos])

theorem roundtrip_amended_witness :
    cartesianToLongLat (cylindricalToCartesian 1 0 0).2.2
      (cylindricalToCartesian 1 0 0).1 (cylindricalToCartesian 1 0 0).2.1 =
      ((0 : ℝ), (0 : ℝ)) :=
  roundtrip_amended 1 0 0 one_pos (neg_lt_zero.mpr Real.pi_pos) Real.pi_pos.le
    (neg_lt_zero.mpr (by positivity)) (by positivity)

/-- Embedding of getAngleAtBorder (app.py lines 127-132). The only division
by a non-constant quantity is by (end_lat - start_lat) mod pi in the second
branch; a zero divisor there is modelled by the error value none (never
reached under the guarded precondition). -/
noncomputable def getAngleAtBorder (start_long start_lat end_long end_lat : ℝ) :
    Option ℝ :=
  if end_lat = start_lat then some (nmod (start_long + end_long) Real.pi / 2)
  else if pymod (end_lat - start_lat) Real.pi = 0 then none
  else some (nmod (start_long + nmod (end_long - start_long) Real.pi *
    (-start_lat / pymod (end_lat - start_lat) Real.pi)) Real.pi)

theorem pymod_eq_zero_iff (a m : ℝ) (hm : m ≠ 0) :
    pymod a m = 0 ↔ ∃ k : ℤ, a = k * m := by
  unfold pymod
  constructor
  · intro h
    exact ⟨⌊a / m⌋, by linarith⟩
  · rintro ⟨k, rfl⟩
    have hdiv : ((k : ℝ) * m) / m = k := by field_simp
    rw [hdiv, Int.floor_intCast]
    ring

/-- C10: getAngleAtBorder is total on inputs whose latitude difference is
not a nonzero integer multiple of pi: when the latitudes are equal it
returns nmod(start_long + end_long, pi) / 2 through a branch that never
divides by a latitude difference, and otherwise its divisor
(end_lat - start_lat) mod pi is nonzero, so the division is guarded. -/
theorem getAngleAtBorder_total (start_long start_lat end_long end_lat : ℝ)
    (h : ¬ ∃ k : ℤ, k ≠ 0 ∧ end_lat - start_lat = k * Real.pi) :
    (getAngleAtBorder start_long start_lat end_long end_lat).isSome = true ∧
    (end_lat = start_lat →
      getAngleAtBorder start_long start_lat end_long end_lat =
        some (nmod (start_long + end_long) Real.pi / 2)) ∧
    (end_lat ≠ start_lat → pymod (end_lat - start_lat) Real.pi ≠ 0) := by
  by_cases he : end_lat = start_lat
  · refine ⟨?_, fun _ => ?_, fun hne => absurd he hne⟩ <;>
      simp [getAngleAtBorder, he]
  · have hdiv : pymod (end_lat - start_lat) Real.pi ≠ 0 := by
      intro h0
      obtain ⟨k, hk⟩ := (pymod_eq_zero_iff _ _ Real.pi_ne_zero).mp h0
      rcases eq_or_ne k 0 with rfl | hk0
      · rw [Int.cast_zero, zero_mul] at hk
        exact he (by linarith)
      · exact h ⟨k, hk0, hk⟩
    refine ⟨?_, fun heq => absurd heq he, fun _ => hdiv⟩
    simp [getAngleAtBorder, he, hdiv]

theorem getAngleAtBorder_total_witness :
    getAngleAtBorder 0 0 0 0 = some (nmod (0 + 0) Real.pi / 2) ∧
    (getAngleAtBorder 0 0 0 1).isSome = true := by
  have h1 : ¬ ∃ k : ℤ, k ≠ 0 ∧ (0 : ℝ) - 0 = k * Real.pi := by
    rintro ⟨k, hk0, hk⟩
    have hkr : (k : ℝ) ≠ 0 := Int.cast_ne_zero.mpr hk0
    exact mul_ne_zero hkr Real.pi_ne_zero (by linarith)
  have h2 : ¬ ∃ k : ℤ, k ≠ 0 ∧ (1 : ℝ) - 0 = k * Real.pi := by
    rintro ⟨k, hk0, hk⟩
    rw [sub_zero] at hk
    have habs : (1 : ℝ) ≤ |(k : ℝ)| := by
      have := Int.one_le_abs hk0
      exact_mod_cast this
    have habs2 : |(1 : ℝ)| = |(k : ℝ)| * Real.pi := by
      rw [hk, abs_mul, abs_of_pos Real.pi_pos]
    rw [abs_one] at habs2
    nlinarith [Real.pi_gt_three, Real.pi_pos]
  exact ⟨(getAngleAtBorder_total 0 0 0 0 h1).2.1 rfl,
         (getAngleAtBorder_total 0 0 0 1 h2).1⟩

/-- The drawing primitives emitted by drawPolygon: MoveTo, LineTo and Arc
(center, radius, start angle, stop angle, anticlockwise flag). -/
inductive Prim where
  | moveTo (x y : ℝ)
  | lineTo (x y : ℝ)
  | arc (cx cy radius startAngle stopAngle : ℝ) (anticlockwise : Bool)

/-- True exactly on LineTo primitives. -/
def Prim.isLineTo : Prim → Bool
  | .lineTo _ _ => true
  | _ => false

/-- The failures drawPolygon can raise: the points[0] lookup on an empty
list, and a zero divisor inside getAngleAtBorder. -/
inductive ClipErr where
  | indexError
  | zeroDiv

/-- The scan state of drawPolygon (app.py lines 154-156): the first visible
point, the most recent visible point, the most recent hidden point, and the
primitives emitted so far. The source clears lastOutside on a visible point
but never clears lastInside on a hidden one; the embedding keeps that. -/
structure ClipState where
  startPos : Option Pt3
  lastInside : Option Pt3
  lastOutside : Option Pt3
  acc : List Prim

/-- getAngleAtBorder applied to the geographic coordinates of two cartesian
points, as called at app.py lines 161, 169 and 187. -/
noncomputable def crossingAngle (p q : Pt3) : Option ℝ :=
  getAngleAtBorder (cartesianToLongLat p.1 p.2.1 p.2.2).1
    (cartesianToLongLat p.1 p.2.1 p.2.2).2
    (cartesianToLongLat q.1 q.2.1 q.2.2).1
    (cartesianToLongLat q.1 q.2.1 q.2.2).2

/-- The primitive emitted before the LineTo of a visible point (app.py lines
168-177): nothing when the previous point was also visible; a MoveTo onto
the rim when the scan has not yet produced a visible point; otherwise the
rim Arc from the last inside longitude to the new crossing angle. -/
noncomputable def preLine (W H R : ℝ) (s : ClipState) (p : Pt3) :
    Except ClipErr (List Prim) :=
  match s.lastOutside with
  | none => .ok []
  | some lo =>
      match crossingAngle p lo with
      | none => .error .zeroDiv
      | some ca =>
          match s.lastInside with
          | none =>
              .ok [Prim.moveTo (W / 2 + R * Real.cos ca) (H / 2 - R * Real.sin ca)]
          | some li =>
              .ok [Prim.arc (W / 2) (H / 2) R
                (-(cartesianToLongLat li.1 li.2.1 li.2.2).1) (-ca)
                (if nmod (-ca - -(cartesianToLongLat li.1 li.2.1 li.2.2).1)
                  Real.pi < 0 then true else false)]

/-- One iteration of the point loop of drawPolygon (app.py lines 158-184)
for the point p = (x, y, z): hidden points (x < 0) emit a rim LineTo only on
the visible-to-hidden transition and record themselves as lastOutside;
visible points emit the preLine primitive, then a LineTo of the projected
point, track startPos, and become lastInside while clearing lastOutside. -/
noncomputable def stepPoint (W H R : ℝ) (s : ClipState) (p : Pt3) :
    Except ClipErr ClipState :=
  if p.1 < 0 then
    match s.lastOutside, s.lastInside with
    | none, some li =>
        match crossingAngle p li with
        | none => .error .zeroDiv
        | some ca =>
            .ok { s with
              acc := s.acc ++ [Prim.lineTo (W / 2 + R * Real.cos ca)
                (H / 2 - R * Real.sin ca)],
              lastOutside := some p }
    | _, _ => .ok { s with lastOutside := some p }
  else
    match preLine W H R s p with
    | .error e => .error e
    | .ok pre =>
        .ok { startPos := match s.startPos with | none => some p | some q => some q,
              lastInside := some p,
              lastOutside := none,
              acc := s.acc ++ pre ++ [Prim.lineTo (p.2.1 + W / 2) (-p.2.2 + H / 2)] }

/-- Runs the drawPolygon scan across a list of points. -/
noncomputable def runClip (W H R : ℝ) : ClipState → List Pt3 → Except ClipErr ClipState
  | s, [] => .ok s
  | s, p :: ps =>
      match stepPoint W H R s p with
      | .error e => .error e
      | .ok s2 => runClip W H R s2 ps

/-- The closing step of drawPolygon after the scan (app.py lines 186-192):
when the scan saw a visible start, ended on a hidden point and has a last
inside point, one more rim Arc is emitted. -/
noncomputable def closeStep (W H R : ℝ) (s : ClipState) : Except ClipErr ClipState :=
  match s.startPos, s.lastOutside, s.lastInside with
  | some sp, some lo, some li =>
      match crossingAngle sp lo with
      | none => .error .zeroDiv
      | some ca =>
          .ok { s with
            acc := s.acc ++ [Prim.arc (W / 2) (H / 2) R
              (-(cartesianToLongLat li.1 li.2.1 li.2.2).1) (-ca)
              (if nmod (-ca - -(cartesianToLongLat li.1 li.2.1 li.2.2).1)
                Real.pi < 0 then true else false)] }
  | _, _, _ => .ok s

/-- Embedding of drawPolygon (app.py lines 152-194): the scan walks
it.chain(points, [points[0]]) and then runs the closing step; the emitted
primitives are returned in order. An empty input fails on the points[0]
lookup (IndexError). -/
noncomputable def drawPolygon (W H R : ℝ) (points : List Pt3) :
    Except ClipErr (List Prim) :=
  match points with
  | [] => .error .indexError
  | p0 :: _ =>
      match runClip W H R ⟨none, none, none, []⟩ (points ++ [p0]) with
      | .error e => .error e
      | .ok s =>
          match closeStep W H R s with
          | .error e => .error e
          | .ok s2 => .ok s2.acc

/-- The projected LineTo primitive a visible point contributes. -/
noncomputable def lineOf (W H : ℝ) (p : Pt3) : Prim :=
  Prim.lineTo (p.2.1 + W / 2) (-p.2.2 + H / 2)

theorem stepPoint_visible_no_outside (W H R : ℝ) (s : ClipState) (p : Pt3)
    (hp : ¬ p.1 < 0) (hlo : s.lastOutside = none) :
    stepPoint W H R s p =
      .ok ⟨match s.startPos with | none => some p | some q => some q,
        some p, none, s.acc ++ [lineOf W H p]⟩ := by
  have hpre : preLine W H R s p = .ok [] := by
    unfold preLine
    rw [hlo]
  unfold stepPoint
  rw [if_neg hp, hpre]
  simp only [List.append_nil, lineOf]

theorem runClip_all_visible (W H R : ℝ) :
    ∀ (l : List Pt3) (s : ClipState), (∀ p ∈ l, ¬ p.1 < 0) → s.lastOutside = none →
      ∃ sp li, runClip W H R s l =
        .ok ⟨sp, li, none, s.acc ++ l.map (lineOf W H)⟩
  | [], s, _, hlo => by
      refine ⟨s.startPos, s.lastInside, ?_⟩
      obtain ⟨a, b, c, d⟩ := s
      cases hlo
      simp [runClip]
  | p :: l, s, hvis, hlo => by
      have hp : ¬ p.1 < 0 := hvis p (List.mem_cons_self p l)
      have hstep := stepPoint_visible_no_outside W H R s p hp hlo
      obtain ⟨sp, li, ih⟩ := runClip_all_visible W H R l
        ⟨match s.startPos with | none => some p | some q => some q,
          some p, none, s.acc ++ [lineOf W H p]⟩
        (fun q hq => hvis q (List.mem_cons_of_mem p hq)) rfl
      refine ⟨sp, li, ?_⟩
      show (match stepPoint W H R s p with
        | Except.error e => Except.error e
        | Except.ok s2 => runClip W H R s2 l) = _
      rw [hstep]
      show runClip W H R
        ⟨match s.startPos with | none => some p | some q => some q,
          some p, none, s.acc ++ [lineOf W H p]⟩ l = _
      rw [ih]
      simp [List.append_assoc]

theorem stepPoint_hidden_no_inside (W H R : ℝ) (s : ClipState) (p : Pt3)
    (hp : p.1 < 0) (hli : s.lastInside = none) :
    stepPoint W H R s p = .ok ⟨s.startPos, s.lastInside, some p, s.acc⟩ := by
  unfold stepPoint
  rw [if_pos hp]
  obtain ⟨a, b, c, d⟩ := s
  cases hli
  cases c <;> rfl

theorem runClip_all_hidden (W H R : ℝ) :
    ∀ (l : List Pt3) (s : ClipState), (∀ p ∈ l, p.1 < 0) → s.lastInside = none →
      ∃ lo, runClip W H R s l = .ok ⟨s.startPos, none, lo, s.acc⟩
  | [], s, _, hli => by
      refine ⟨s.lastOutside, ?_⟩
      obtain ⟨a, b, c, d⟩ := s
      cases hli
      simp [runClip]
  | p :: l, s, hhid, hli => by
      have hp : p.1 < 0 := hhid p (List.mem_cons_self p l)
      have hstep := stepPoint_hidden_no_inside W H R s p hp hli
      obtain ⟨lo, ih⟩ := runClip_all_hidden W H R l
        ⟨s.startPos, s.lastInside, some p, s.acc⟩
        (fun q hq => hhid q (List.mem_cons_of_mem p hq)) hli
      refine ⟨lo, ?_⟩
      show (match stepPoint W H R s p with
        | Except.error e => Except.error e
        | Except.ok s2 => runClip W H R s2 l) = _
      rw [hstep]
      show runClip W H R ⟨s.startPos, s.lastInside, some p, s.acc⟩ l = _
      rw [ih, hli]

theorem closeStep_no_outside (W H R : ℝ) (s : ClipState) (h : s.lastOutside = none) :
    closeStep W H R s = .ok s := by
  obtain ⟨sp, li, lo, acc⟩ := s
  cases h
  cases sp <;> cases li <;> rfl

theorem closeStep_no_start (W H R : ℝ) (s : ClipState) (h : s.startPos = none) :
    closeStep W H R s = .ok s := by
  obtain ⟨sp, li, lo, acc⟩ := s
  cases h
  cases li <;> cases lo <;> rfl

theorem all_isLineTo_map_lineOf (W H : ℝ) (l : List Pt3) :
    (l.map (lineOf W H)).all Prim.isLineTo = true := by
  rw [List.all_eq_true]
  intro x hx
  obtain ⟨p, -, rfl⟩ := List.mem_map.mp hx
  rfl

/-- C4 amended: on a non-empty polygon whose points all have x >= 0, the
clipper emits only LineTo primitives (no Arc, no MoveTo) and does not fail;
the number of primitives is the number of points plus one, since the scan
revisits the first point to close the polygon. -/
theorem drawPolygon_all_visible (W H R : ℝ) (points : List Pt3)
    (hne : points ≠ []) (hvis : ∀ p ∈ points, 0 ≤ p.1) :
    (drawPolygon W H R points).map
      (fun prims : List Prim => (prims.all Prim.isLineTo, prims.length)) =
      Except.ok (true, points.length + 1) := by
  obtain ⟨p0, rest, rfl⟩ := List.exists_cons_of_ne_nil hne
  have hvis2 : ∀ p ∈ (p0 :: rest) ++ [p0], ¬ p.1 < 0 := by
    intro p hp
    rcases List.mem_append.mp hp with h | h
    · exact not_lt.mpr (hvis p h)
    · rw [List.mem_singleton] at h
      subst h
      exact not_lt.mpr (hvis p (List.mem_cons_self _ _))
  obtain ⟨sp, li, hrun⟩ := runClip_all_visible W H R ((p0 :: rest) ++ [p0])
    ⟨none, none, none, []⟩ hvis2 rfl
  have hclose := closeStep_no_outside W H R
    ⟨sp, li, none, [] ++ ((p0 :: rest) ++ [p0]).map (lineOf W H)⟩ rfl
  show (match runClip W H R ⟨none, none, none, []⟩ ((p0 :: rest) ++ [p0]) with
    | Except.error e => Except.error e
    | Except.ok s =>
        match closeStep W H R s with
        | Except.error e => Except.error e
        | Except.ok s2 => Except.ok s2.acc).map
      (fun prims : List Prim => (prims.all Prim.isLineTo, prims.length)) = _
  rw [hrun]
  show (match closeStep W H R
      ⟨sp, li, none, [] ++ ((p0 :: rest) ++ [p0]).map (lineOf W H)⟩ with
    | Except.error e => Except.error e
    | Except.ok s2 => Except.ok s2.acc).map
      (fun prims : List Prim => (prims.all Prim.isLineTo, prims.length)) = _
  rw [hclose]
  simp only [Except.map, List.nil_append, Except.ok.injEq, Prod.mk.injEq]
  constructor
  · exact all_isLineTo_map_lineOf W H (p0 :: rest ++ [p0])
  · simp

theorem drawPolygon_all_visible_witness :
    (drawPolygon 800 800 266 [((1 : ℝ), 0, 0)]).map
      (fun prims : List Prim => (prims.all Prim.isLineTo, prims.length)) =
      Except.ok (true, 2) := by
  have hvis : ∀ p ∈ [((1 : ℝ), (0 : ℝ), (0 : ℝ))], (0 : ℝ) ≤ p.1 := by
    intro p hp
    rw [List.mem_singleton] at hp
    subst hp
    norm_num
  have h := drawPolygon_all_visible 800 800 266 [((1 : ℝ), 0, 0)]
    (by simp) hvis
  simpa using h

/-- C5: on a polygon with at least one point, all of whose points have
x < 0, the clipper emits no primitives at all, the closing step included. -/
theorem drawPolygon_all_hidden (W H R : ℝ) (points : List Pt3)
    (hne : points ≠ []) (hhid : ∀ p ∈ points, p.1 < 0) :
    drawPolygon W H R points = Except.ok [] := by
  obtain ⟨p0, rest, rfl⟩ := List.exists_cons_of_ne_nil hne
  have hhid2 : ∀ p ∈ (p0 :: rest) ++ [p0], p.1 < 0 := by
    intro p hp
    rcases List.mem_append.mp hp with h | h
    · exact hhid p h
    · rw [List.mem_singleton] at h
      subst h
      exact hhid p (List.mem_cons_self _ _)
  obtain ⟨lo, hrun⟩ := runClip_all_hidden W H R ((p0 :: rest) ++ [p0])
    ⟨none, none, none, []⟩ hhid2 rfl
  have hclose := closeStep_no_start W H R ⟨none, none, lo, []⟩ rfl
  show (match runClip W H R ⟨none, none, none, []⟩ ((p0 :: rest) ++ [p0]) with
    | Except.error e => Except.error e
    | Except.ok s =>
        match closeStep W H R s with
        | Except.error e => Except.error e
        | Except.ok s2 => Except.ok s2.acc) = _
  rw [hrun]
  show (match closeStep W H R ⟨none, none, lo, []⟩ with
    | Except.error e => Except.error e
    | Except.ok s2 => Except.ok s2.acc) = _
  rw [hclose]

theorem drawPolygon_all_hidden_witness :
    drawPolygon 800 800 266 [((-1 : ℝ), 0, 0)] = Except.ok [] := by
  have hhid : ∀ p ∈ [((-1 : ℝ), (0 : ℝ), (0 : ℝ))], p.1 < 0 := by
    intro p hp
    rw [List.mem_singleton] at hp
    subst hp
    norm_num
  exact drawPolygon_all_hidden 800 800 266 [((-1 : ℝ), 0, 0)] (by simp) hhid

/-- C3: the clipper is not primitive-free and failure-free on the degenerate
inputs: the empty polygon hits the points[0] lookup (an index error), and a
single visible point emits two LineTo primitives rather than none; only the
hidden single point emits nothing. -/
theorem drawPolygon_degenerate :
    drawPolygon 800 800 266 [] = Except.error ClipErr.indexError ∧
    drawPolygon 800 800 266 [((266 : ℝ), 0, 0)] =
      Except.ok [Prim.lineTo 400 400, Prim.lineTo 400 400] ∧
    drawPolygon 800 800 266 [((-266 : ℝ), 0, 0)] = Except.ok [] := by
  refine ⟨rfl, ?_, ?_⟩
  · have hvis2 : ∀ p ∈ ([((266 : ℝ), (0 : ℝ), (0 : ℝ))] ++
        [((266 : ℝ), (0 : ℝ), (0 : ℝ))] : List Pt3), ¬ p.1 < 0 := by
      intro p hp
      fin_cases hp <;> norm_num
    obtain ⟨sp, li, hrun⟩ := runClip_all_visible 800 800 266
      ([((266 : ℝ), (0 : ℝ), (0 : ℝ))] ++ [((266 : ℝ), (0 : ℝ), (0 : ℝ))])
      ⟨none, none, none, []⟩ hvis2 rfl
    have hclose := closeStep_no_outside 800 800 266
      ⟨sp, li, none, [] ++ ([((266 : ℝ), (0 : ℝ), (0 : ℝ))] ++
        [((266 : ℝ), (0 : ℝ), (0 : ℝ))]).map (lineOf 800 800)⟩ rfl
    show (match runClip 800 800 266 ⟨none, none, none, []⟩
        ([((266 : ℝ), (0 : ℝ), (0 : ℝ))] ++ [((266 : ℝ), (0 : ℝ), (0 : ℝ))]) with
      | Except.error e => Except.error e
      | Except.ok s =>
          match closeStep 800 800 266 s with
          | Except.error e => Except.error e
          | Except.ok s2 => Except.ok s2.acc) = _
    rw [hrun]
    show (match closeStep 800 800 266
        ⟨sp, li, none, [] ++ ([((266 : ℝ), (0 : ℝ), (0 : ℝ))] ++
          [((266 : ℝ), (0 : ℝ), (0 : ℝ))]).map (lineOf 800 800)⟩ with
      | Except.error e => Except.error e
      | Except.ok s2 => Except.ok s2.acc) = _
    rw [hclose]
    show Except.ok ([] ++ ([((266 : ℝ), (0 : ℝ), (0 : ℝ))] ++
      [((266 : ℝ), (0 : ℝ), (0 : ℝ))]).map (lineOf 800 800)) = _
    norm_num [lineOf]
  · have hhid2 : ∀ p ∈ ([((-266 : ℝ), (0 : ℝ), (0 : ℝ))] ++
        [((-266 : ℝ), (0 : ℝ), (0 : ℝ))] : List Pt3), p.1 < 0 := by
      intro p hp
      fin_cases hp <;> norm_num
    obtain ⟨lo, hrun⟩ := runClip_all_hidden 800 800 266
      ([((-266 : ℝ), (0 : ℝ), (0 : ℝ))] ++ [((-266 : ℝ), (0 : ℝ), (0 : ℝ))])
      ⟨none, none, none, []⟩ hhid2 rfl
    have hclose := closeStep_no_start 800 800 266 ⟨none, none, lo, []⟩ rfl
    show (match runClip 800 800 266 ⟨none, none, none, []⟩
        ([((-266 : ℝ), (0 : ℝ), (0 : ℝ))] ++ [((-266 : ℝ), (0 : ℝ), (0 : ℝ))]) with
      | Except.error e => Except.error e
      | Except.ok s =>
          match closeStep 800 800 266 s with
          | Except.error e => Except.error e
          | Except.ok s2 => Except.ok s2.acc) = _
    rw [hrun]
    show (match closeStep 800 800 266 ⟨none, none, lo, []⟩ with
      | Except.error e => Except.error e
      | Except.ok s2 => Except.ok s2.acc) = _
    rw [hclose]

/-- C4 counterexample: a triangle of three visible points produces four
primitives (the scan revisits the first point to close the ring), not
three, so the primitive count is not the point count. -/
theorem drawPolygon_count_counterexample :
    (drawPolygon 800 800 266 [((1 : ℝ), 0, 0), (1, 1, 0), (1, 0, 1)]).map
      (fun prims : List Prim => prims.length) = Except.ok 4 ∧
    (4 : ℕ) ≠
      ([((1 : ℝ), (0 : ℝ), (0 : ℝ)), (1, 1, 0), (1, 0, 1)] : List Pt3).length := by
  constructor
  · have hvis2 : ∀ p ∈ ([((1 : ℝ), (0 : ℝ), (0 : ℝ)), (1, 1, 0), (1, 0, 1)] ++
        [((1 : ℝ), (0 : ℝ), (0 : ℝ))] : List Pt3), ¬ p.1 < 0 := by
      intro p hp
      fin_cases hp <;> norm_num
    obtain ⟨sp, li, hrun⟩ := runClip_all_visible 800 800 266
      ([((1 : ℝ), (0 : ℝ), (0 : ℝ)), (1, 1, 0), (1, 0, 1)] ++
        [((1 : ℝ), (0 : ℝ), (0 : ℝ))])
      ⟨none, none, none, []⟩ hvis2 rfl
    have hclose := closeStep_no_outside 800 800 266
      ⟨sp, li, none, [] ++ (([((1 : ℝ), (0 : ℝ), (0 : ℝ)), (1, 1, 0), (1, 0, 1)] ++
        [((1 : ℝ), (0 : ℝ), (0 : ℝ))]).map (lineOf 800 800))⟩ rfl
    show (match runClip 800 800 266 ⟨none, none, none, []⟩
        ([((1 : ℝ), (0 : ℝ), (0 : ℝ)), (1, 1, 0), (1, 0, 1)] ++
          [((1 : ℝ), (0 : ℝ), (0 : ℝ))]) with
      | Except.error e => Except.error e
      | Except.ok s =>
          match closeStep 800 800 266 s with
          | Except.error e => Except.error e
          | Except.ok s2 => Except.ok s2.acc).map
        (fun prims : List Prim => prims.length) = _
    rw [hrun]
    show (match closeStep 800 800 266
        ⟨sp, li, none, [] ++ (([((1 : ℝ), (0 : ℝ), (0 : ℝ)), (1, 1, 0), (1, 0, 1)] ++
          [((1 : ℝ), (0 : ℝ), (0 : ℝ))]).map (lineOf 800 800))⟩ with
      | Except.error e => Except.error e
      | Except.ok s2 => Except.ok s2.acc).map
        (fun prims : List Prim => prims.length) = _
    rw [hclose]
    simp [Except.map]
  · simp

/-- The drawing actions draw can emit, in order: the globe with its clipped
borders (drawGlobe), the shadow polygon (drawShadow), and the red satellite
marker ellipse. -/
inductive DrawCmd where
  | globe
  | shadow
  | marker

/-- Embedding of draw (app.py lines 229-247): with no satellite position
only the globe is drawn; otherwise the marker is projected at depth D under
the current rotation, globe and shadow come first when its x > 0, the
marker is always drawn, and the globe comes after the marker when x <= 0.
drawShadow itself draws nothing when the position is unset, and here it is
set, so the shadow call draws. -/
noncomputable def draw (D rotation : ℝ) (issPos : Option (ℝ × ℝ)) : List DrawCmd :=
  match issPos with
  | none => [DrawCmd.globe]
  | some (long, lat) =>
      let c := cylindricalToCartesian D (long * Real.pi / 180 + rotation)
        (lat * Real.pi / 180)
      (if c.1 > 0 then [DrawCmd.globe, DrawCmd.shadow] else []) ++
        [DrawCmd.marker] ++
        (if c.1 ≤ 0 then [DrawCmd.globe] else [])

/-- C9: when the satellite position is unset draw renders only the globe;
when set with projected depth coordinate x > 0 the order is globe with
borders, shadow, marker; when x <= 0 the order is marker then globe, with
no shadow. -/
theorem draw_order (D rotation long lat : ℝ) :
    draw D rotation none = [DrawCmd.globe] ∧
    (0 < (cylindricalToCartesian D (long * Real.pi / 180 + rotation)
        (lat * Real.pi / 180)).1 →
      draw D rotation (some (long, lat)) =
        [DrawCmd.globe, DrawCmd.shadow, DrawCmd.marker]) ∧
    ((cylindricalToCartesian D (long * Real.pi / 180 + rotation)
        (lat * Real.pi / 180)).1 ≤ 0 →
      draw D rotation (some (long, lat)) = [DrawCmd.marker, DrawCmd.globe]) := by
  refine ⟨rfl, ?_, ?_⟩
  · intro h
    simp only [draw]
    rw [if_pos h, if_neg (not_le.mpr h)]
    rfl
  · intro h
    simp only [draw]
    rw [if_neg (not_lt.mpr h), if_pos h]
    rfl

theorem draw_order_witness :
    draw 1 0 (some (0, 0)) = [DrawCmd.globe, DrawCmd.shadow, DrawCmd.marker] ∧
    draw 1 0 (some (180, 0)) = [DrawCmd.marker, DrawCmd.globe] := by
  constructor
  · refine (draw_order 1 0 0 0).2.1 ?_
    norm_num [cylindricalToCartesian, Real.cos_zero]
  · refine (draw_order 1 0 180 0).2.2 ?_
    have h : (180 : ℝ) * Real.pi / 180 + 0 = Real.pi := by ring
    norm_num [cylindricalToCartesian, h, Real.cos_pi, Real.cos_zero]

/-- The JSON keys the poll path reads. -/
inductive JsonKey where
  | iss_position
  | longitude
  | latitude

/-- The iss_position object of a poll response: each coordinate field is
present (carrying its parsed numeric value) or missing. -/
structure IssPayload where
  longitude : Option ℚ
  latitude : Option ℚ

/-- What one poll cycle receives from the feed: either the request itself
fails (network error / unusable response), or a JSON document arrives, with
or without its iss_position object. -/
inductive PollOutcome where
  | netFail
  | payload (issPosition : Option IssPayload)

/-- The exceptions the poll path can raise. -/
inductive PollErr where
  | netError
  | keyError (key : JsonKey)

/-- Embedding of get_iss_position (app.py lines 17-27): reads
result["iss_position"], then its longitude, then its latitude; a missing
key raises KeyError, modelled by Except.error, as is a failed request. -/
def get_iss_position : PollOutcome → Except PollErr (ℚ × ℚ)
  | .netFail => .error .netError
  | .payload none => .error (.keyError .iss_position)
  | .payload (some pos) =>
      match pos.longitude with
      | none => .error (.keyError .longitude)
      | some lon =>
          match pos.latitude with
          | none => .error (.keyError .latitude)
          | some lat => .ok (lon, lat)

/-- What a run of the dataLoop leaves behind: the stored satellite position
and the exception, if any, that escaped past the poll boundary. -/
structure LoopResult where
  issPos : Option (ℚ × ℚ)
  escaped : Option PollErr

/-- Embedding of dataLoop (app.py lines 118-122) over a finite schedule of
poll outcomes: each cycle assigns iss_pos from a successful poll; the loop
body has no exception handler, so a raising poll leaves iss_pos unchanged,
propagates the exception and ends the task, and the remaining outcomes are
never polled. -/
def dataLoopRun (issPos : Option (ℚ × ℚ)) : List PollOutcome → LoopResult
  | [] => ⟨issPos, none⟩
  | r :: rs =>
      match get_iss_position r with
      | .ok p => dataLoopRun (some p) rs
      | .error e => ⟨issPos, some e⟩

/-- C2: the poll loop has no exception handler: the malformed response
whose iss_position object is empty raises KeyError on the longitude field,
the exception escapes past the poll boundary and ends the task; the stored
position is indeed left unchanged, but the following successful poll is
never reached, so the loop does not retry. -/
theorem dataLoop_malformed_kills_loop :
    get_iss_position (PollOutcome.payload (some ⟨none, none⟩)) =
      Except.error (PollErr.keyError JsonKey.longitude) ∧
    dataLoopRun none
      [PollOutcome.payload (some ⟨none, none⟩),
       PollOutcome.payload (some ⟨some 10, some 20⟩)] =
      ⟨none, some (PollErr.keyError JsonKey.longitude)⟩ :=
  ⟨rfl, rfl⟩
